import Mathlib

/-!
Verification of the blackfriday markdown renderer (package `bfmdrenderer`,
file `main.go`): a custom Blackfriday v2 renderer that serializes a parsed
markdown AST back into markdown text.

Embedding conventions:
- Emitted bytes are modelled as `List Char` (every byte the renderer writes
  is ASCII, and node payloads are treated as text).
- The mutable `Renderer` struct is threaded explicitly through each visit.
- `log` diagnostics are collected in a `List String`.
- Go nil-pointer dereferences and out-of-range slice expressions are
  modelled by returning `none` (a faulting execution has no result).
- The depth-first traversal driver (Blackfriday's `Walk`, an external
  collaborator specified at its interface boundary in the design document)
  is modelled by `walkT`: enter visit, then, for container kinds whose
  enter visit returned the go-to-next directive, the children and the exit
  visit; non-container (leaf) kinds receive a single visit, and a
  skip-children directive suppresses both descent and the exit visit.
  `walkT` uses a recursion-depth fuel so that it is structurally recursive.
-/

/-- Node kinds of the blackfriday AST (`bf.NodeType`). `other n` stands for
any integer value outside the named enumeration (hit by the renderer's
`default` case). -/
inductive NodeType where
  | Document
  | BlockQuote
  | List
  | Item
  | Paragraph
  | Heading
  | HorizontalRule
  | Emph
  | Strong
  | Del
  | Link
  | Image
  | Text
  | HTMLBlock
  | CodeBlock
  | Softbreak
  | Hardbreak
  | Code
  | HTMLSpan
  | Table
  | TableCell
  | TableHead
  | TableBody
  | TableRow
  | other (n : Nat)
deriving DecidableEq, Repr

/-- `bf.ListTypeOrdered` (bit 0 of `bf.ListType`). -/
def listTypeOrdered : Nat := 1

/-- `bf.ListTypeTerm` (bit 2 of `bf.ListType`). -/
def listTypeTerm : Nat := 4

/-- The per-node payload the renderer reads: the `ListData` fields
(`ListFlags`, `Tight`, `BulletChar`, `Delimiter`), `HeadingData.Level`,
`LinkData.Destination`, `CodeBlockData.Info` and `Literal`. -/
structure NodeData where
  listFlags : Nat := 0
  tight : Bool := false
  bulletChar : Char := '-'
  delimiter : Char := '.'
  level : Nat := 0
  literal : String := ""
  destination : String := ""
  codeBlockInfo : String := ""
deriving DecidableEq, Repr

/-- A `bf.Node` as seen by the renderer: its type, its payload, and its
chain of ancestors (`Parent` pointers). -/
inductive Node where
  | mk : NodeType → NodeData → Option Node → Node

def Node.ty : Node → NodeType
  | .mk t _ _ => t

def Node.data : Node → NodeData
  | .mk _ d _ => d

def Node.parent : Node → Option Node
  | .mk _ _ p => p

def Node.listFlags (n : Node) : Nat := n.data.listFlags

def Node.tight (n : Node) : Bool := n.data.tight

def Node.bulletChar (n : Node) : Char := n.data.bulletChar

def Node.delimiter (n : Node) : Char := n.data.delimiter

def Node.level (n : Node) : Nat := n.data.level

def Node.literal (n : Node) : String := n.data.literal

def Node.destination (n : Node) : String := n.data.destination

def Node.codeBlockInfo (n : Node) : String := n.data.codeBlockInfo

/-- `bf.WalkStatus`. -/
inductive WalkStatus where
  | GoToNext
  | SkipChildren
  | Terminate
deriving DecidableEq, Repr

/-- The `Renderer` struct of `main.go`: quote-prefix accumulator,
list-nesting counter, list-indentation accumulator, and the stack of
ordered-list counters. -/
structure Renderer where
  paragraphDecoration : List Char
  nestedListLevel : Int
  nestedListDecoration : List Char
  orderedListCounters : List Nat
deriving DecidableEq, Repr

/-- `NewRenderer()` with no options: the zero value of the struct. -/
def emptyRenderer : Renderer := ⟨[], 0, [], []⟩

/-- Shorthand for string literals as byte (character) lists. -/
def chars (s : String) : List Char := s.data

/-- Increment the last element of a list (Go's
`r.orderedListCounters[len(r.orderedListCounters)-1]++`). -/
def bumpLast : List Nat → List Nat
  | [] => []
  | [k] => [k + 1]
  | k :: ks => k :: bumpLast ks

/-- `skipParagraphTags` of `main.go`.  Returns `none` when the Go code
would dereference a nil pointer: the initial nil check on `node.Parent`
does not guard the later unconditional access `node.Parent.Parent`, so a
paragraph with no parent faults. -/
def skipParagraphTags (node : Node) : Option Bool :=
  match node.parent with
  | none => none
  | some parent =>
    if parent.ty = NodeType.BlockQuote then
      some true
    else
      match parent.parent with
      | none => some false
      | some grandparent =>
        if grandparent.ty ≠ NodeType.List then
          some false
        else
          some (decide (grandparent.ty = NodeType.List) && grandparent.tight)

/-- The result of one `RenderNode` call: the updated renderer state, the
bytes written to `w`, the diagnostics logged, and the returned walk
status. -/
structure VisitResult where
  state : Renderer
  out : List Char
  diags : List String
  status : WalkStatus
deriving DecidableEq, Repr

/-- `(*Renderer).RenderNode` of `main.go`, translated case by case.
`none` models a Go runtime panic (nil dereference or out-of-range
slicing). -/
def renderNode (r : Renderer) (node : Node) (entering : Bool) : Option VisitResult :=
  match node.ty with
  | .Document => some ⟨r, [], [], .GoToNext⟩
  | .BlockQuote =>
    if entering then
      some ⟨{ r with paragraphDecoration := r.paragraphDecoration ++ chars "> " },
            [], [], .GoToNext⟩
    else
      if 2 ≤ r.paragraphDecoration.length then
        some ⟨{ r with paragraphDecoration :=
                  r.paragraphDecoration.take (r.paragraphDecoration.length - 2) },
              [], [], .GoToNext⟩
      else none
  | .List =>
    if entering then
      let r1 : Renderer :=
        { r with orderedListCounters := r.orderedListCounters ++ [0],
                 nestedListLevel := r.nestedListLevel + 1 }
      if r1.nestedListLevel > 1 then
        some ⟨{ r1 with nestedListDecoration := r1.nestedListDecoration ++ chars "  " },
              [], [], .GoToNext⟩
      else
        some ⟨r1, [], [], .GoToNext⟩
    else
      match
        (if r.nestedListLevel > 1 then
          (if 2 ≤ r.nestedListDecoration.length then
            some ({ r with nestedListDecoration :=
                      r.nestedListDecoration.take (r.nestedListDecoration.length - 2) },
                  ([] : List Char))
          else none)
        else some (r, chars "\n")) with
      | none => none
      | some (ra, out) =>
        match ra.orderedListCounters with
        | [] => none
        | _ :: _ =>
          some ⟨{ ra with nestedListLevel := ra.nestedListLevel - 1,
                          orderedListCounters := ra.orderedListCounters.dropLast },
                out, [], .GoToNext⟩
  | .Item =>
    if entering then
      match node.parent with
      | none => none
      | some parent =>
        if (parent.listFlags &&& listTypeOrdered) ≠ 0 then
          match r.orderedListCounters with
          | [] => none
          | _ :: _ =>
            let c := bumpLast r.orderedListCounters
            some ⟨{ r with orderedListCounters := c },
                  r.nestedListDecoration ++ (toString (c.getLastD 0)).data
                    ++ [node.delimiter, ' '],
                  [], .GoToNext⟩
        else if (parent.listFlags &&& listTypeTerm) ≠ 0 then
          some ⟨r, r.nestedListDecoration,
                ["Definition lists not implemented by Renderer"], .GoToNext⟩
        else
          some ⟨r, r.nestedListDecoration ++ [node.bulletChar, ' '], [], .GoToNext⟩
    else
      some ⟨r, [], [], .GoToNext⟩
  | .Paragraph =>
    if entering then
      some ⟨r, r.paragraphDecoration, [], .GoToNext⟩
    else
      match skipParagraphTags node with
      | none => none
      | some true => some ⟨r, chars "\n", [], .GoToNext⟩
      | some false => some ⟨r, chars "\n" ++ chars "\n", [], .GoToNext⟩
  | .Heading =>
    if entering then
      some ⟨r, List.replicate node.level '#' ++ chars " ", [], .GoToNext⟩
    else
      some ⟨r, chars "\n\n", [], .GoToNext⟩
  | .HorizontalRule => some ⟨r, chars "---\n\n", [], .GoToNext⟩
  | .Emph => some ⟨r, chars "*", [], .GoToNext⟩
  | .Strong => some ⟨r, chars "**", [], .GoToNext⟩
  | .Del => some ⟨r, chars "~~", [], .GoToNext⟩
  | .Link =>
    if entering then
      some ⟨r, chars "[", [], .GoToNext⟩
    else
      some ⟨r, chars "](" ++ node.destination.data ++ chars ")", [], .GoToNext⟩
  | .Image =>
    if entering then
      some ⟨r, chars "![", [], .GoToNext⟩
    else
      some ⟨r, chars "](" ++ node.destination.data ++ chars ")", [], .GoToNext⟩
  | .Code =>
    some ⟨r, chars "`" ++ node.literal.data ++ chars "`", [], .GoToNext⟩
  | .Text => some ⟨r, node.literal.data, [], .GoToNext⟩
  | .CodeBlock =>
    some ⟨r, chars "```" ++ node.codeBlockInfo.data ++ chars "\n"
             ++ node.literal.data ++ chars "```\n\n",
          [], .GoToNext⟩
  | .Softbreak =>
    some ⟨r, [], ["Soft breaks not implemented by renderer"], .SkipChildren⟩
  | .Hardbreak => some ⟨r, chars "  \n", [], .GoToNext⟩
  | .HTMLBlock =>
    some ⟨r, [], ["HTML elements not implemented by renderer"], .SkipChildren⟩
  | .HTMLSpan =>
    some ⟨r, [], ["HTML elements not implemented by renderer"], .SkipChildren⟩
  | .Table =>
    some ⟨r, [], ["Markdown tables not implemented by renderer"], .SkipChildren⟩
  | .TableCell =>
    some ⟨r, [], ["Markdown tables not implemented by renderer"], .SkipChildren⟩
  | .TableHead =>
    some ⟨r, [], ["Markdown tables not implemented by renderer"], .SkipChildren⟩
  | .TableBody =>
    some ⟨r, [], ["Markdown tables not implemented by renderer"], .SkipChildren⟩
  | .TableRow =>
    some ⟨r, [], ["Markdown tables not implemented by renderer"], .SkipChildren⟩
  | .other n =>
    some ⟨r, [], ["Unknown BlackFriday Node type " ++ toString n], .SkipChildren⟩

/-- A document subtree as handed to the traversal driver: a node kind, its
payload, and its children. -/
inductive DocTree where
  | node : NodeType → NodeData → List DocTree → DocTree

def DocTree.ty : DocTree → NodeType
  | .node t _ _ => t

/-- Blackfriday's `(*Node).IsContainer`: container kinds are visited on
entry and on exit and their children are walked; the remaining (leaf)
kinds are visited exactly once. -/
def isContainer : NodeType → Bool
  | .Document | .BlockQuote | .List | .Item | .Paragraph | .Heading
  | .Emph | .Strong | .Del | .Link | .Image
  | .Table | .TableHead | .TableBody | .TableRow | .TableCell => true
  | _ => false

/-- The accumulated effect of walking a subtree: final renderer state,
bytes written, diagnostics logged. -/
structure WalkResult where
  state : Renderer
  out : List Char
  diags : List String
deriving DecidableEq, Repr

/-- Run a visitor over a list of sibling subtrees in order, threading the
renderer state and concatenating output and diagnostics. -/
def stepChildren (step : Renderer → DocTree → Option WalkResult) :
    Renderer → List DocTree → Option WalkResult
  | r, [] => some ⟨r, [], []⟩
  | r, c :: cs =>
    match step r c with
    | none => none
    | some v =>
      match stepChildren step v.state cs with
      | none => none
      | some w => some ⟨w.state, v.out ++ w.out, v.diags ++ w.diags⟩

/-- The depth-first traversal driver (Blackfriday's `Walk`, specified in
the design document as an external collaborator): enter visit; for a
container kind whose enter visit returned the go-to-next directive, walk
the children and deliver the exit visit; otherwise stop at the enter
visit.  The `fuel` argument bounds the recursion depth (one unit per tree
level) and makes the definition structurally recursive; any `fuel` of at
least the subtree height lets the walk complete. -/
def walkT : Nat → Option Node → Renderer → DocTree → Option WalkResult
  | 0, _, _, _ => none
  | fuel + 1, p, r, DocTree.node ty dat cs =>
    let n : Node := Node.mk ty dat p
    match renderNode r n true with
    | none => none
    | some v =>
      match isContainer ty, v.status with
      | true, WalkStatus.GoToNext =>
        match stepChildren (walkT fuel (some n)) v.state cs with
        | none => none
        | some w =>
          match renderNode w.state n false with
          | none => none
          | some v2 =>
            some ⟨v2.state, v.out ++ w.out ++ v2.out, v.diags ++ w.diags ++ v2.diags⟩
      | true, WalkStatus.SkipChildren => some ⟨v.state, v.out, v.diags⟩
      | true, WalkStatus.Terminate => some ⟨v.state, v.out, v.diags⟩
      | false, _ => some ⟨v.state, v.out, v.diags⟩

/-- Spec-side reformulation of the paragraph suppression rule, in the
words of the design document: the second trailing newline is suppressed
exactly when the paragraph's immediate parent is a block-quote or its
grandparent is a list marked tight. -/
def suppressSecondNewline (parent : Node) : Bool :=
  decide (parent.ty = NodeType.BlockQuote) ||
    (match parent.parent with
     | some gp => decide (gp.ty = NodeType.List) && gp.tight
     | none => false)

/-- The kinds `RenderNode` handles by logging a diagnostic and falling
through to `return bf.SkipChildren`: soft break, inline/block HTML, table
and all table subparts, and every unrecognized kind. -/
def unsupportedKind : NodeType → Bool
  | .Softbreak | .HTMLBlock | .HTMLSpan
  | .Table | .TableCell | .TableHead | .TableBody | .TableRow
  | .other _ => true
  | _ => false

/-- The diagnostic `RenderNode` logs for each unsupported kind. -/
def unsupportedDiag : NodeType → String
  | .Softbreak => "Soft breaks not implemented by renderer"
  | .HTMLBlock => "HTML elements not implemented by renderer"
  | .HTMLSpan => "HTML elements not implemented by renderer"
  | .other n => "Unknown BlackFriday Node type " ++ toString n
  | _ => "Markdown tables not implemented by renderer"

/-- The kinds whose dispatch-table exit column reads "(children skipped)"
in the design document: horizontal rule, inline code, text, code block,
hard line break. -/
def leafEmitKind : NodeType → Bool
  | .HorizontalRule | .Code | .Text | .CodeBlock | .Hardbreak => true
  | _ => false

/-- Relation between the renderer state before and after walking one
complete subtree: every field is restored, except that the innermost
(last) ordered-list counter may have advanced. -/
def SimState (a b : Renderer) : Prop :=
  b.paragraphDecoration = a.paragraphDecoration ∧
  b.nestedListLevel = a.nestedListLevel ∧
  b.nestedListDecoration = a.nestedListDecoration ∧
  b.orderedListCounters.length = a.orderedListCounters.length ∧
  b.orderedListCounters.dropLast = a.orderedListCounters.dropLast

/-- A root document node (the only node whose `Parent` is nil). -/
def docRootNode : Node := Node.mk .Document {} none

/-- A definition list node (`bf.ListTypeTerm` flag set), as the parent of
a term item. -/
def termListNode : Node := Node.mk .List { listFlags := listTypeTerm } (some docRootNode)

/-- An unordered (bullet) list node. -/
def bulletListNode : Node := Node.mk .List {} (some docRootNode)

/-- An ordered list node with delimiter `d` and the given tightness, at
top level of a document. -/
def listNodeO (d : Char) (tight : Bool) : Node :=
  Node.mk .List { listFlags := listTypeOrdered, tight := tight, delimiter := d }
    (some docRootNode)

/-- A document containing a single horizontal rule. -/
def hrOnlyDoc : DocTree :=
  DocTree.node .Document {} [DocTree.node .HorizontalRule {} []]

/-- A document with a table node between two text paragraphs. -/
def tableBetweenParagraphs : DocTree :=
  DocTree.node .Document {} [
    DocTree.node .Paragraph {} [DocTree.node .Text { literal := "a" } []],
    DocTree.node .Table {} [],
    DocTree.node .Paragraph {} [DocTree.node .Text { literal := "b" } []]]

/-- A paragraph with text `s` nested inside exactly one block-quote. -/
def quotedParagraph (s : String) : DocTree :=
  DocTree.node .Document {} [
    DocTree.node .BlockQuote {} [
      DocTree.node .Paragraph {} [DocTree.node .Text { literal := s } []]]]

/-- A paragraph with text `s` nested inside two block-quotes. -/
def doublyQuotedParagraph (s : String) : DocTree :=
  DocTree.node .Document {} [
    DocTree.node .BlockQuote {} [
      DocTree.node .BlockQuote {} [
        DocTree.node .Paragraph {} [DocTree.node .Text { literal := s } []]]]]

/-- A quoted paragraph whose content spans two lines via a hard line
break. -/
def quotedTwoLineParagraph : DocTree :=
  DocTree.node .Document {} [
    DocTree.node .BlockQuote {} [
      DocTree.node .Paragraph {} [
        DocTree.node .Text { literal := "a" } [],
        DocTree.node .Hardbreak {} [],
        DocTree.node .Text { literal := "b" } []]]]

/-- One item of a flat ordered list: an item holding one paragraph of
text `s`. -/
def orderedItemTree (d : Char) (tight : Bool) (s : String) : DocTree :=
  DocTree.node .Item { listFlags := listTypeOrdered, tight := tight, delimiter := d }
    [DocTree.node .Paragraph {} [DocTree.node .Text { literal := s } []]]

/-- A document holding a single flat ordered list whose items are text
paragraphs with the given contents. -/
def orderedListDoc (d : Char) (tight : Bool) (contents : List String) : DocTree :=
  DocTree.node .Document {} [
    DocTree.node .List { listFlags := listTypeOrdered, tight := tight, delimiter := d }
      (contents.map (orderedItemTree d tight))]

/-- The bytes a flat ordered list's items emit, starting from counter
value `k`: marker `k+1`, the delimiter, a space, the item text, and the
item's newline(s). -/
def orderedItemsOut (d : Char) (tight : Bool) : Nat → List String → List Char
  | _, [] => []
  | k, s :: ss =>
    (toString (k + 1)).data ++ [d, ' '] ++ s.data
      ++ (if tight then chars "\n" else chars "\n\n")
      ++ orderedItemsOut d tight (k + 1) ss

/-- The worked example of the design document: heading, paragraph, flat
tight unordered list of two text items. -/
def exampleDoc : DocTree :=
  DocTree.node .Document {} [
    DocTree.node .Heading { level := 2 } [DocTree.node .Text { literal := "Hi" } []],
    DocTree.node .Paragraph {} [DocTree.node .Text { literal := "a" } []],
    DocTree.node .List { tight := true } [
      DocTree.node .Item { tight := true } [
        DocTree.node .Paragraph {} [DocTree.node .Text { literal := "x" } []]],
      DocTree.node .Item { tight := true } [
        DocTree.node .Paragraph {} [DocTree.node .Text { literal := "y" } []]]]]

@[simp] theorem Node.ty_mk (t : NodeType) (d : NodeData) (p : Option Node) :
    (Node.mk t d p).ty = t := rfl

@[simp] theorem Node.data_mk (t : NodeType) (d : NodeData) (p : Option Node) :
    (Node.mk t d p).data = d := rfl

@[simp] theorem Node.parent_mk (t : NodeType) (d : NodeData) (p : Option Node) :
    (Node.mk t d p).parent = p := rfl

theorem bumpLast_length : ∀ (l : List Nat), (bumpLast l).length = l.length
  | [] => rfl
  | [_] => rfl
  | _ :: k' :: ks => by
    have ih := bumpLast_length (k' :: ks)
    simp only [bumpLast, List.length_cons, ih]

theorem bumpLast_concat : ∀ (l : List Nat) (k : Nat), bumpLast (l ++ [k]) = l ++ [k + 1]
  | [], _ => rfl
  | [_], _ => rfl
  | x :: y :: ys, k => by
    have ih := bumpLast_concat (y :: ys) k
    simp only [List.cons_append] at ih ⊢
    simp only [bumpLast]
    rw [ih]

theorem bumpLast_dropLast (l : List Nat) : (bumpLast l).dropLast = l.dropLast := by
  rcases eq_or_ne l [] with rfl | hne
  · rfl
  · obtain ⟨ks, k, rfl⟩ : ∃ ks k, l = ks ++ [k] :=
      ⟨l.dropLast, l.getLast hne, (List.dropLast_append_getLast hne).symm⟩
    rw [bumpLast_concat, List.dropLast_concat, List.dropLast_concat]

theorem take_len_sub_two (l : List Char) (a b : Char) :
    (l ++ [a, b]).take ((l ++ [a, b]).length - 2) = l := by
  have h : (l ++ [a, b]).length - 2 = l.length := by simp
  rw [h]
  exact List.take_left l [a, b]

theorem simState_refl (r : Renderer) : SimState r r :=
  ⟨rfl, rfl, rfl, rfl, rfl⟩

theorem simState_trans {a b c : Renderer} (h1 : SimState a b) (h2 : SimState b c) :
    SimState a c := by
  obtain ⟨p1, l1, d1, c1, e1⟩ := h1
  obtain ⟨p2, l2, d2, c2, e2⟩ := h2
  exact ⟨p2.trans p1, l2.trans l1, d2.trans d1, c2.trans c1, e2.trans e1⟩

theorem stepChildren_sim (step : Renderer → DocTree → Option WalkResult)
    (hstep : ∀ r t w, step r t = some w → SimState r w.state) :
    ∀ (cs : List DocTree) (r : Renderer) (w : WalkResult),
      stepChildren step r cs = some w → SimState r w.state := by
  intro cs
  induction cs with
  | nil =>
    intro r w h
    simp only [stepChildren, Option.some.injEq] at h
    subst h
    exact simState_refl r
  | cons c cs ih =>
    intro r w h
    simp only [stepChildren] at h
    split at h
    · exact absurd h (by simp)
    case _ v hv =>
      split at h
      · exact absurd h (by simp)
      case _ w2 hw =>
        simp only [Option.some.injEq] at h
        subst h
        exact simState_trans (hstep r c v hv) (ih v.state w2 hw)

theorem walkT_sim : ∀ (fuel : Nat) (p : Option Node) (r : Renderer) (t : DocTree)
    (w : WalkResult), walkT fuel p r t = some w → SimState r w.state := by
  intro fuel
  induction fuel with
  | zero =>
    intro p r t w h
    simp [walkT] at h
  | succ fuel ih =>
    intro p r t w h
    obtain ⟨ty, dat, cs⟩ := t
    simp only [walkT] at h
    cases ty
    case Document =>
      simp [renderNode, isContainer] at h
      split at h
      · exact Option.noConfusion h
      next w2 heq =>
        simp only [Option.some.injEq] at h
        subst h
        exact stepChildren_sim _ (ih _) _ _ w2 heq
    case Heading =>
      simp [renderNode, isContainer] at h
      split at h
      · exact Option.noConfusion h
      next w2 heq =>
        simp only [Option.some.injEq] at h
        subst h
        exact stepChildren_sim _ (ih _) _ _ w2 heq
    case Emph =>
      simp [renderNode, isContainer] at h
      split at h
      · exact Option.noConfusion h
      next w2 heq =>
        simp only [Option.some.injEq] at h
        subst h
        exact stepChildren_sim _ (ih _) _ _ w2 heq
    case Strong =>
      simp [renderNode, isContainer] at h
      split at h
      · exact Option.noConfusion h
      next w2 heq =>
        simp only [Option.some.injEq] at h
        subst h
        exact stepChildren_sim _ (ih _) _ _ w2 heq
    case Del =>
      simp [renderNode, isContainer] at h
      split at h
      · exact Option.noConfusion h
      next w2 heq =>
        simp only [Option.some.injEq] at h
        subst h
        exact stepChildren_sim _ (ih _) _ _ w2 heq
    case Link =>
      simp [renderNode, isContainer] at h
      split at h
      · exact Option.noConfusion h
      next w2 heq =>
        simp only [Option.some.injEq] at h
        subst h
        exact stepChildren_sim _ (ih _) _ _ w2 heq
    case Image =>
      simp [renderNode, isContainer] at h
      split at h
      · exact Option.noConfusion h
      next w2 heq =>
        simp only [Option.some.injEq] at h
        subst h
        exact stepChildren_sim _ (ih _) _ _ w2 heq
    case Paragraph =>
      simp [renderNode, isContainer] at h
      split at h
      · exact Option.noConfusion h
      next w2 heq =>
        have hsim := stepChildren_sim _ (ih _) _ _ _ heq
        split at h
        · exact Option.noConfusion h
        next v2 heq2 =>
          split at heq2
          · exact Option.noConfusion heq2
          all_goals
            simp only [Option.some.injEq] at heq2
            subst heq2
            simp only [Option.some.injEq] at h
            subst h
            exact hsim
    case BlockQuote =>
      simp [renderNode, isContainer] at h
      split at h
      · exact Option.noConfusion h
      next w2 heq =>
        have hsim := stepChildren_sim _ (ih _) _ _ _ heq
        have hpd' : w2.state.paragraphDecoration = r.paragraphDecoration ++ chars "> " :=
          hsim.1
        have hlvl' : w2.state.nestedListLevel = r.nestedListLevel := hsim.2.1
        have hdec' : w2.state.nestedListDecoration = r.nestedListDecoration := hsim.2.2.1
        have hlen' : w2.state.orderedListCounters.length = r.orderedListCounters.length :=
          hsim.2.2.2.1
        have hdrop' : w2.state.orderedListCounters.dropLast = r.orderedListCounters.dropLast :=
          hsim.2.2.2.2
        split at h
        · exact Option.noConfusion h
        next v2 heq2 =>
          split at heq2
          next hle =>
            simp only [Option.some.injEq] at heq2
            subst heq2
            simp only [Option.some.injEq] at h
            subst h
            refine ⟨?_, hlvl', hdec', hlen', hdrop'⟩
            show w2.state.paragraphDecoration.take
                (w2.state.paragraphDecoration.length - 2) = r.paragraphDecoration
            rw [hpd', show chars "> " = ['>', ' '] from rfl]
            exact take_len_sub_two _ _ _
          next =>
            exact Option.noConfusion heq2
    case List =>
      by_cases hlv : r.nestedListLevel + 1 > 1
      · simp [renderNode, isContainer, hlv] at h
        split at h
        · exact Option.noConfusion h
        next w2 heq =>
          have hsim := stepChildren_sim _ (ih _) _ _ _ heq
          have hpd' : w2.state.paragraphDecoration = r.paragraphDecoration := hsim.1
          have hlvl' : w2.state.nestedListLevel = r.nestedListLevel + 1 := hsim.2.1
          have hdec' : w2.state.nestedListDecoration =
              r.nestedListDecoration ++ chars "  " := hsim.2.2.1
          have hlen' : w2.state.orderedListCounters.length =
              (r.orderedListCounters ++ [0]).length := hsim.2.2.2.1
          have hdrop' : w2.state.orderedListCounters.dropLast =
              (r.orderedListCounters ++ [0]).dropLast := hsim.2.2.2.2
          rw [List.dropLast_concat] at hdrop'
          split at h
          · exact Option.noConfusion h
          next v2 heq2 =>
            split at heq2
            · exact Option.noConfusion heq2
            next ra out heq3 =>
              rw [if_pos (show w2.state.nestedListLevel > 1 by rw [hlvl']; exact hlv),
                if_pos (show 2 ≤ w2.state.nestedListDecoration.length by
                  rw [hdec', List.length_append]
                  have hc2 : (chars "  ").length = 2 := rfl
                  omega)] at heq3
              simp only [Option.some.injEq, Prod.mk.injEq] at heq3
              obtain ⟨hra, hout⟩ := heq3
              subst hra
              subst hout
              split at heq2
              · exact Option.noConfusion heq2
              next c0 crest heqc =>
                simp only [Option.some.injEq] at heq2
                subst heq2
                simp only [Option.some.injEq] at h
                subst h
                refine ⟨hpd', ?_, ?_, ?_, ?_⟩
                · show w2.state.nestedListLevel - 1 = r.nestedListLevel
                  rw [hlvl']
                  omega
                · show (w2.state.nestedListDecoration.take
                    (w2.state.nestedListDecoration.length - 2)) = r.nestedListDecoration
                  rw [hdec', show chars "  " = [' ', ' '] from rfl]
                  exact take_len_sub_two _ _ _
                · show w2.state.orderedListCounters.dropLast.length =
                    r.orderedListCounters.length
                  rw [List.length_dropLast, hlen', List.length_append]
                  simp
                · show w2.state.orderedListCounters.dropLast.dropLast =
                    r.orderedListCounters.dropLast
                  rw [hdrop']
      · simp [renderNode, isContainer, hlv] at h
        split at h
        · exact Option.noConfusion h
        next w2 heq =>
          have hsim := stepChildren_sim _ (ih _) _ _ _ heq
          have hpd' : w2.state.paragraphDecoration = r.paragraphDecoration := hsim.1
          have hlvl' : w2.state.nestedListLevel = r.nestedListLevel + 1 := hsim.2.1
          have hdec' : w2.state.nestedListDecoration = r.nestedListDecoration := hsim.2.2.1
          have hlen' : w2.state.orderedListCounters.length =
              (r.orderedListCounters ++ [0]).length := hsim.2.2.2.1
          have hdrop' : w2.state.orderedListCounters.dropLast =
              (r.orderedListCounters ++ [0]).dropLast := hsim.2.2.2.2
          rw [List.dropLast_concat] at hdrop'
          split at h
          · exact Option.noConfusion h
          next v2 heq2 =>
            split at heq2
            · exact Option.noConfusion heq2
            next ra out heq3 =>
              rw [if_neg (show ¬ w2.state.nestedListLevel > 1 by
                rw [hlvl']; exact hlv)] at heq3
              simp only [Option.some.injEq, Prod.mk.injEq] at heq3
              obtain ⟨hra, hout⟩ := heq3
              subst hra
              subst hout
              split at heq2
              · exact Option.noConfusion heq2
              next c0 crest heqc =>
                simp only [Option.some.injEq] at heq2
                subst heq2
                simp only [Option.some.injEq] at h
                subst h
                refine ⟨hpd', ?_, hdec', ?_, ?_⟩
                · show w2.state.nestedListLevel - 1 = r.nestedListLevel
                  rw [hlvl']
                  omega
                · show w2.state.orderedListCounters.dropLast.length =
                    r.orderedListCounters.length
                  rw [List.length_dropLast, hlen', List.length_append]
                  simp
                · show w2.state.orderedListCounters.dropLast.dropLast =
                    r.orderedListCounters.dropLast
                  rw [hdrop']
    case Item =>
      cases p with
      | none =>
        simp [renderNode, isContainer] at h
      | some parent =>
        by_cases hord : (parent.listFlags &&& listTypeOrdered) = 0
        · by_cases hterm : (parent.listFlags &&& listTypeTerm) = 0
          · simp [renderNode, isContainer, hord, hterm] at h
            split at h
            · exact Option.noConfusion h
            next w2 heq =>
              have hsim := stepChildren_sim _ (ih _) _ _ _ heq
              simp only [Option.some.injEq] at h
              subst h
              exact hsim
          · simp [renderNode, isContainer, hord, hterm] at h
            split at h
            · exact Option.noConfusion h
            next w2 heq =>
              have hsim := stepChildren_sim _ (ih _) _ _ _ heq
              simp only [Option.some.injEq] at h
              subst h
              exact hsim
        · cases hcnt : r.orderedListCounters with
          | nil =>
            simp [renderNode, isContainer, hord, hcnt] at h
          | cons c0 crest =>
            simp [renderNode, isContainer, hord, hcnt] at h
            split at h
            · exact Option.noConfusion h
            next w2 heq =>
              have hsim := stepChildren_sim _ (ih _) _ _ _ heq
              have h1 : SimState r { r with orderedListCounters := bumpLast (c0 :: crest) } := by
                refine ⟨rfl, rfl, rfl, ?_, ?_⟩
                · show (bumpLast (c0 :: crest)).length = r.orderedListCounters.length
                  rw [bumpLast_length, hcnt]
                · show (bumpLast (c0 :: crest)).dropLast = r.orderedListCounters.dropLast
                  rw [bumpLast_dropLast, hcnt]
              simp only [Option.some.injEq] at h
              subst h
              exact simState_trans h1 hsim
    all_goals
      simp [renderNode, isContainer] at h
      subst h
      exact simState_refl r

theorem chars_newline_append : chars "\n" ++ chars "\n" = chars "\n\n" := rfl

theorem renderNode_no_terminate (r : Renderer) (n : Node) (e : Bool) (v : VisitResult)
    (hv : renderNode r n e = some v) : v.status ≠ WalkStatus.Terminate := by
  cases n with
  | mk t d p =>
    cases t <;>
      simp only [renderNode, Node.ty_mk, Node.parent_mk] at hv <;>
      (repeat' split at hv) <;>
      first
      | exact Option.noConfusion hv
      | (simp only [Option.some.injEq] at hv
         subst hv
         simp)

theorem renderNode_len_lvl (r : Renderer) (n : Node) (e : Bool) (v : VisitResult)
    (hv : renderNode r n e = some v)
    (hinv : (r.orderedListCounters.length : Int) = r.nestedListLevel) :
    (v.state.orderedListCounters.length : Int) = v.state.nestedListLevel := by
  cases n with
  | mk t d p =>
    cases t
    case List =>
      simp only [renderNode, Node.ty_mk] at hv
      split at hv
      · -- entering
        split at hv <;>
          (simp only [Option.some.injEq] at hv
           subst hv
           show ((r.orderedListCounters ++ [0]).length : Int) = r.nestedListLevel + 1
           rw [List.length_append, List.length_singleton]
           push_cast
           omega)
      · -- exiting
        split at hv
        · exact Option.noConfusion hv
        next ra out heq3 =>
          split at hv
          · exact Option.noConfusion hv
          next c0 crest heqc =>
            simp only [Option.some.injEq] at hv
            subst hv
            split at heq3
            · split at heq3
              · simp only [Option.some.injEq, Prod.mk.injEq] at heq3
                obtain ⟨hra, _⟩ := heq3
                subst hra
                have hc : r.orderedListCounters = c0 :: crest := heqc
                show ((r.orderedListCounters.dropLast).length : Int) = r.nestedListLevel - 1
                rw [List.length_dropLast]
                have hlen1 : r.orderedListCounters.length = crest.length + 1 := by
                  rw [hc]; simp
                omega
              · exact Option.noConfusion heq3
            · simp only [Option.some.injEq, Prod.mk.injEq] at heq3
              obtain ⟨hra, _⟩ := heq3
              subst hra
              have hc : r.orderedListCounters = c0 :: crest := heqc
              show ((r.orderedListCounters.dropLast).length : Int) = r.nestedListLevel - 1
              rw [List.length_dropLast]
              have hlen1 : r.orderedListCounters.length = crest.length + 1 := by
                rw [hc]; simp
              omega
    all_goals
      simp only [renderNode, Node.ty_mk, Node.parent_mk] at hv
      (repeat' split at hv) <;>
      first
      | exact Option.noConfusion hv
      | (simp only [Option.some.injEq] at hv
         subst hv
         first
         | exact hinv
         | (show ((bumpLast r.orderedListCounters).length : Int) = r.nestedListLevel
            rw [bumpLast_length]
            exact hinv))

/-- Claim C1: after a complete traversal of any document tree from the
initial empty renderer state — every block-quote and list enter event
matched by its exit event, ending with the document node's exit — the
renderer state returns to its initial empty value: empty quote-prefix
accumulator, `nestedListLevel = 0`, empty indentation accumulator, empty
ordered-counter stack. -/
theorem walk_restores_empty_state (fuel : Nat) (t : DocTree) (w : WalkResult)
    (h : walkT fuel none emptyRenderer t = some w) : w.state = emptyRenderer := by
  obtain ⟨h1, h2, h3, h4, h5⟩ := walkT_sim fuel none emptyRenderer t w h
  have h4' : w.state.orderedListCounters.length = 0 := h4
  have hcnt : w.state.orderedListCounters = [] := List.length_eq_zero.mp h4'
  cases hst : w.state with
  | mk pd lvl deco cnt =>
    rw [hst] at h1 h2 h3 hcnt
    have e1 : pd = [] := h1
    have e2 : lvl = 0 := h2
    have e3 : deco = [] := h3
    have e4 : cnt = [] := hcnt
    rw [e1, e2, e3, e4]
    rfl

/-- Witness for C1: a concrete complete traversal whose final state is the
initial one. -/
theorem walk_restores_empty_state_witness :
    walkT 3 none emptyRenderer hrOnlyDoc = some ⟨emptyRenderer, chars "---\n\n", []⟩ ∧
    (⟨emptyRenderer, chars "---\n\n", []⟩ : WalkResult).state = emptyRenderer :=
  ⟨by decide,
   walk_restores_empty_state 3 hrOnlyDoc ⟨emptyRenderer, chars "---\n\n", []⟩ (by decide)⟩

/-- Claim C9 counterexample: the worked example document of the design
document serializes with a final blank line — the byte sequence ends in
two newlines after the last item, not the single newline the example
gives. -/
theorem example_doc_output_counterexample :
    walkT 6 none emptyRenderer exampleDoc =
      some ⟨emptyRenderer, chars "## Hi\n\na\n\n- x\n- y\n\n", []⟩ ∧
    chars "## Hi\n\na\n\n- x\n- y\n\n" ≠ chars "## Hi\n\na\n\n- x\n- y\n" :=
  ⟨by decide, by decide⟩

/-- Claim C9 (amended): the example document [Heading(2,"Hi"),
Paragraph("a"), tight unordered List of items "x","y"] serializes to
exactly "## Hi\n\na\n\n- x\n- y\n\n": blank line after heading and after
paragraph, single newline between consecutive unordered items, and, after
the last item's own newline, one further newline emitted at the list's
exit. -/
theorem example_doc_output :
    walkT 6 none emptyRenderer exampleDoc =
      some ⟨emptyRenderer, chars "## Hi\n\na\n\n- x\n- y\n\n", []⟩ := by decide

/-- Claim C10: `skipParagraphTags` faults exactly on a node with no
parent: the initial nil check on the parent does not guard the
unconditional grandparent access `node.Parent.Parent`, so totality holds
precisely under the precondition that the node has a parent. -/
theorem skipParagraphTags_fault_iff (n : Node) :
    skipParagraphTags n = none ↔ n.parent = none := by
  cases n with
  | mk t d p =>
    cases p with
    | none => simp [skipParagraphTags]
    | some parent =>
      simp only [skipParagraphTags, Node.parent_mk]
      constructor
      · intro hc
        exfalso
        split at hc
        · exact Option.noConfusion hc
        · split at hc
          · exact Option.noConfusion hc
          · split at hc
            · exact Option.noConfusion hc
            · exact Option.noConfusion hc
      · intro hc
        exact Option.noConfusion hc

/-- Claim C2: on every Paragraph exit event of a node that has a parent,
the renderer writes one newline, followed by a second newline unless the
immediate parent is a block-quote or the grandparent is a list marked
tight — in exactly those two cases the second newline is suppressed; the
state is unchanged, nothing is logged, and the directive is go-to-next. -/
theorem paragraph_exit_newlines (r : Renderer) (n parent : Node)
    (hty : n.ty = NodeType.Paragraph) (hp : n.parent = some parent) :
    renderNode r n false =
      some ⟨r, if suppressSecondNewline parent then chars "\n" else chars "\n\n",
            [], WalkStatus.GoToNext⟩ := by
  cases n with
  | mk t d p =>
    have ht : t = NodeType.Paragraph := hty
    subst ht
    have hp' : p = some parent := hp
    subst hp'
    by_cases hbq : parent.ty = NodeType.BlockQuote
    · simp [renderNode, skipParagraphTags, suppressSecondNewline, hbq]
    · cases hgp : parent.parent with
      | none =>
        simp [renderNode, skipParagraphTags, suppressSecondNewline, hbq, hgp,
          chars_newline_append]
      | some gp =>
        by_cases hgl : gp.ty = NodeType.List
        · cases hgt : gp.tight <;>
            simp [renderNode, skipParagraphTags, suppressSecondNewline, hbq, hgp, hgl, hgt,
              chars_newline_append]
        · simp [renderNode, skipParagraphTags, suppressSecondNewline, hbq, hgp, hgl,
            chars_newline_append]

/-- Witness for C2: a paragraph directly under the document root emits the
newline pair. -/
theorem paragraph_exit_newlines_witness :
    renderNode emptyRenderer (Node.mk .Paragraph {} (some docRootNode)) false =
      some ⟨emptyRenderer,
        if suppressSecondNewline docRootNode then chars "\n" else chars "\n\n",
        [], WalkStatus.GoToNext⟩ :=
  paragraph_exit_newlines emptyRenderer _ _ rfl rfl

/-- Claim C4 counterexample: on a definition-list (term) item enter event
the renderer returns the go-to-next directive, not the skip-children
directive the claim asserts. -/
theorem term_item_status_counterexample :
    Option.map VisitResult.status
        (renderNode emptyRenderer (Node.mk .Item {} (some termListNode)) true) =
      some WalkStatus.GoToNext ∧
    WalkStatus.GoToNext ≠ WalkStatus.SkipChildren :=
  ⟨by decide, by decide⟩

/-- Claim C4 (amended): on a term-item enter event (parent list flagged as
definition-term, not ordered) the renderer records the definition-list
diagnostic, emits no marker bytes for the item (only the accumulated
indentation prefix), leaves the state unchanged, and returns go-to-next,
so the item's children are traversed rather than skipped. -/
theorem term_item_diag_go_to_next (r : Renderer) (n parent : Node)
    (hty : n.ty = NodeType.Item) (hp : n.parent = some parent)
    (hord : parent.listFlags &&& listTypeOrdered = 0)
    (hterm : parent.listFlags &&& listTypeTerm ≠ 0) :
    renderNode r n true =
      some ⟨r, r.nestedListDecoration,
        ["Definition lists not implemented by Renderer"], WalkStatus.GoToNext⟩ := by
  cases n with
  | mk t d p =>
    have ht : t = NodeType.Item := hty
    subst ht
    have hp' : p = some parent := hp
    subst hp'
    simp [renderNode, hord, hterm]

/-- Witness for C4's amended claim at a concrete term item. -/
theorem term_item_diag_go_to_next_witness :
    renderNode emptyRenderer (Node.mk .Item {} (some termListNode)) true =
      some ⟨emptyRenderer, emptyRenderer.nestedListDecoration,
        ["Definition lists not implemented by Renderer"], WalkStatus.GoToNext⟩ :=
  term_item_diag_go_to_next emptyRenderer _ termListNode rfl rfl (by decide) (by decide)

/-- Claim C6 counterexample: an enter event for an item of an unordered
list leaves the counter stack unchanged — the top is not incremented, so
"incremented exactly once regardless of ordered or unordered" fails. -/
theorem unordered_item_counter_counterexample :
    renderNode ⟨[], 1, [], [0]⟩ (Node.mk .Item {} (some bulletListNode)) true =
      some ⟨⟨[], 1, [], [0]⟩, chars "- ", [], WalkStatus.GoToNext⟩ ∧
    ([0] : List Nat) ≠ bumpLast [0] :=
  ⟨by decide, by decide⟩

/-- Claim C6 (amended): an item enter event increments the innermost
(top) counter exactly once when the parent list is ordered; when the
parent list is not ordered (bullet or term items) the state, and hence
the counter stack, is unchanged; and every successful visit preserves the
invariant that the counter-stack length equals `nestedListLevel`. -/
theorem item_counter_discipline :
    (∀ (r : Renderer) (n parent : Node), n.ty = NodeType.Item → n.parent = some parent →
      parent.listFlags &&& listTypeOrdered ≠ 0 → r.orderedListCounters ≠ [] →
      renderNode r n true =
        some ⟨{ r with orderedListCounters := bumpLast r.orderedListCounters },
          r.nestedListDecoration
            ++ (toString ((bumpLast r.orderedListCounters).getLastD 0)).data
            ++ [n.delimiter, ' '],
          [], WalkStatus.GoToNext⟩) ∧
    (∀ (r : Renderer) (n parent : Node), n.ty = NodeType.Item → n.parent = some parent →
      parent.listFlags &&& listTypeOrdered = 0 →
      ∃ out diags, renderNode r n true = some ⟨r, out, diags, WalkStatus.GoToNext⟩) ∧
    (∀ (r : Renderer) (n : Node) (e : Bool) (v : VisitResult),
      renderNode r n e = some v →
      (r.orderedListCounters.length : Int) = r.nestedListLevel →
      (v.state.orderedListCounters.length : Int) = v.state.nestedListLevel) := by
  refine ⟨?_, ?_, fun r n e v hv hinv => renderNode_len_lvl r n e v hv hinv⟩
  · intro r n parent hty hp hord hcnt
    cases n with
    | mk t d p =>
      have ht : t = NodeType.Item := hty
      subst ht
      have hp' : p = some parent := hp
      subst hp'
      cases hc : r.orderedListCounters with
      | nil => exact absurd hc hcnt
      | cons c0 crest => simp [renderNode, hord, hc]
  · intro r n parent hty hp hord
    cases n with
    | mk t d p =>
      have ht : t = NodeType.Item := hty
      subst ht
      have hp' : p = some parent := hp
      subst hp'
      by_cases hterm : parent.listFlags &&& listTypeTerm = 0
      · exact ⟨r.nestedListDecoration ++ [d.bulletChar, ' '], [],
          by simp [renderNode, hord, hterm, Node.bulletChar]⟩
      · exact ⟨r.nestedListDecoration, ["Definition lists not implemented by Renderer"],
          by simp [renderNode, hord, hterm]⟩

/-- Witness for C6's amended claim: the first item of an ordered list
advances the counter from 0 to 1 and emits the marker "1. ". -/
theorem item_counter_discipline_witness :
    renderNode ⟨[], 1, [], [0]⟩
        (Node.mk .Item { listFlags := 1, delimiter := '.' } (some (listNodeO '.' true))) true =
      some ⟨⟨[], 1, [], bumpLast [0]⟩,
        ([] : List Char) ++ (toString ((bumpLast [0]).getLastD 0)).data ++ ['.', ' '],
        [], WalkStatus.GoToNext⟩ :=
  item_counter_discipline.1 ⟨[], 1, [], [0]⟩
    (Node.mk .Item { listFlags := 1, delimiter := '.' } (some (listNodeO '.' true)))
    (listNodeO '.' true) rfl rfl (by decide) (by decide)

/-- Claim C8 counterexample: a horizontal-rule visit returns the
go-to-next directive, not the skip-children directive the claim
asserts. -/
theorem leaf_kind_status_counterexample :
    Option.map VisitResult.status
        (renderNode emptyRenderer (Node.mk .HorizontalRule {} (some docRootNode)) true) =
      some WalkStatus.GoToNext ∧
    WalkStatus.GoToNext ≠ WalkStatus.SkipChildren :=
  ⟨by decide, by decide⟩

/-- Claim C8 (amended): for the kinds whose exit column reads "children
skipped" — horizontal-rule, inline-code, text, code-block, hard break —
`RenderNode` returns go-to-next; the engine nevertheless never descends
into such a node's children because these kinds are non-containers
(leaves) for the traversal driver: walking such a node is independent of
its children. -/
theorem leaf_kinds_go_to_next_no_descent (ty : NodeType) (hty : leafEmitKind ty = true) :
    (∀ (r : Renderer) (dat : NodeData) (p : Option Node) (e : Bool),
      Option.map VisitResult.status (renderNode r (Node.mk ty dat p) e) =
        some WalkStatus.GoToNext) ∧
    isContainer ty = false ∧
    (∀ (fuel : Nat) (p : Option Node) (r : Renderer) (dat : NodeData) (cs : List DocTree),
      walkT (fuel + 1) p r (DocTree.node ty dat cs) =
        walkT (fuel + 1) p r (DocTree.node ty dat [])) := by
  cases ty <;> simp [leafEmitKind] at hty <;>
    exact ⟨fun r dat p e => by simp [renderNode],
      rfl,
      fun fuel p r dat cs => by simp [walkT, renderNode, isContainer]⟩

/-- Witness for C8's amended claim at the text kind. -/
theorem leaf_kinds_go_to_next_no_descent_witness :
    isContainer NodeType.Text = false :=
  (leaf_kinds_go_to_next_no_descent NodeType.Text (by decide)).2.1

/-- Claim C3: every visit of a node of an unsupported kind (soft break,
inline or block HTML, table and all table subparts) or of an unrecognized
kind writes no bytes, records exactly one diagnostic, and returns the
skip-children directive; no visit ever returns the abort (terminate)
directive; walking such a node's whole subtree contributes no bytes, no
state change and exactly its one diagnostic; and a document with a table
between two paragraphs serializes both paragraphs normally around it. -/
theorem unsupported_kind_graceful :
    (∀ (r : Renderer) (n : Node) (e : Bool), unsupportedKind n.ty = true →
      renderNode r n e = some ⟨r, [], [unsupportedDiag n.ty], WalkStatus.SkipChildren⟩) ∧
    (∀ (r : Renderer) (n : Node) (e : Bool) (v : VisitResult),
      renderNode r n e = some v → v.status ≠ WalkStatus.Terminate) ∧
    (∀ (fuel : Nat) (p : Option Node) (r : Renderer) (dat : NodeData) (ty : NodeType)
      (cs : List DocTree), unsupportedKind ty = true →
      walkT (fuel + 1) p r (DocTree.node ty dat cs) =
        some ⟨r, [], [unsupportedDiag ty]⟩) ∧
    walkT 6 none emptyRenderer tableBetweenParagraphs =
      some ⟨emptyRenderer, chars "a\n\nb\n\n",
        ["Markdown tables not implemented by renderer"]⟩ := by
  refine ⟨?_, fun r n e v hv => renderNode_no_terminate r n e v hv, ?_, by decide⟩
  · intro r n e hu
    cases n with
    | mk t d p =>
      cases t <;> simp [unsupportedKind] at hu <;>
        simp [renderNode, unsupportedDiag]
  · intro fuel p r dat ty cs hu
    cases ty <;> simp [unsupportedKind] at hu <;>
      simp [walkT, renderNode, isContainer, unsupportedDiag]

/-- Witness for C3 at a concrete table node. -/
theorem unsupported_kind_graceful_witness :
    renderNode emptyRenderer (Node.mk .Table {} (some docRootNode)) true =
      some ⟨emptyRenderer, [], ["Markdown tables not implemented by renderer"],
        WalkStatus.SkipChildren⟩ :=
  unsupported_kind_graceful.1 emptyRenderer (Node.mk .Table {} (some docRootNode)) true
    (by decide)

/-- Claim C7 counterexample: a quoted paragraph whose content spans two
lines via a hard break emits the quote prefix only before its first line:
the full output is "> a  \nb\n", whose second line is "b" without the
"> " prefix — the prefix does not appear on every line the paragraph
produces. -/
theorem quoted_paragraph_decoration_counterexample :
    walkT 4 none emptyRenderer quotedTwoLineParagraph =
      some ⟨emptyRenderer, chars "> a  \nb\n", []⟩ ∧
    chars "> a  \nb\n" = chars "> a  \n" ++ chars "b\n" ∧
    (chars "b\n").take 2 ≠ chars "> " :=
  ⟨by decide, by decide, by decide⟩

/-- Claim C7 (amended): the quote prefix is emitted once per paragraph, at
the paragraph's start: a paragraph inside exactly one block-quote
serializes as "> " followed by its text and a newline, and inside two
block-quotes as "> > " followed by its text and a newline; lines produced
inside the paragraph body (for example after a hard break) are not
prefixed. -/
theorem quoted_paragraph_decoration_once (s : String) :
    walkT 4 none emptyRenderer (quotedParagraph s) =
      some ⟨emptyRenderer, chars "> " ++ s.data ++ chars "\n", []⟩ ∧
    walkT 5 none emptyRenderer (doublyQuotedParagraph s) =
      some ⟨emptyRenderer, chars "> > " ++ s.data ++ chars "\n", []⟩ := by
  constructor <;>
    simp [walkT, quotedParagraph, doublyQuotedParagraph, stepChildren, renderNode,
      isContainer, skipParagraphTags, emptyRenderer, chars, Node.literal, Node.tight,
      Node.data]

theorem walkT_ordered_item (d : Char) (tight : Bool) (s : String) (k : Nat) :
    walkT 4
      (some (Node.mk NodeType.List
        { listFlags := listTypeOrdered, tight := tight, delimiter := d }
        (some (Node.mk NodeType.Document {} none))))
      ⟨[], 1, [], [k]⟩ (orderedItemTree d tight s) =
      some ⟨⟨[], 1, [], [k + 1]⟩,
        (toString (k + 1)).data ++ [d, ' '] ++ s.data
          ++ (if tight then chars "\n" else chars "\n\n"), []⟩ := by
  cases tight <;>
    simp [walkT, stepChildren, renderNode, orderedItemTree, listNodeO, docRootNode,
      isContainer, skipParagraphTags, chars, bumpLast, listTypeOrdered, listTypeTerm,
      Node.literal, Node.tight, Node.data, Node.listFlags, Node.delimiter]

theorem stepChildren_ordered_items (d : Char) (tight : Bool) (contents : List String) :
    ∀ (k : Nat),
      stepChildren (walkT 4
        (some (Node.mk NodeType.List
          { listFlags := listTypeOrdered, tight := tight, delimiter := d }
          (some (Node.mk NodeType.Document {} none)))))
        ⟨[], 1, [], [k]⟩
        (contents.map (orderedItemTree d tight)) =
      some ⟨⟨[], 1, [], [k + contents.length]⟩, orderedItemsOut d tight k contents, []⟩ := by
  induction contents with
  | nil => intro k; simp [stepChildren, orderedItemsOut]
  | cons s ss ih =>
    intro k
    simp only [List.map_cons, stepChildren, walkT_ordered_item, orderedItemsOut, ih (k + 1)]
    simp [List.append_assoc, Nat.add_assoc, Nat.add_comm, Nat.add_left_comm]

/-- Claim C5: a single flat (non-nested) ordered list of N text items
emits exactly the markers 1, 2, …, N in that order, each followed by the
list's delimiter character and a space, regardless of the items'
contents; the document output is those items' bytes followed by the
list's trailing newline, with no diagnostics and the state restored. -/
theorem flat_ordered_list_markers (d : Char) (tight : Bool) (contents : List String) :
    walkT 6 none emptyRenderer (orderedListDoc d tight contents) =
      some ⟨emptyRenderer, orderedItemsOut d tight 0 contents ++ chars "\n", []⟩ := by
  simp [walkT, orderedListDoc, stepChildren, renderNode, isContainer, emptyRenderer,
    stepChildren_ordered_items, chars]
